import Mathlib

/-!
Verification of the alert normalization and MITRE enrichment core of
`app.py` (security alert dashboard).  The Python helper functions
`parse_time`, `pick_source`, `pick_alert_type`, `severity_bucket`,
`mitre_enrich` and the per-alert normalization loop are shallowly
embedded below; raw alerts are JSON-like dictionaries, Python
truthiness and the possibility of an uncaught `AttributeError` (from
calling `.lower()` on a non-string) are modelled explicitly.
-/

namespace SecOps

/-- A JSON-like scalar value as found in a raw alert record loaded from
`alerts.json` (Python values reaching the helpers). -/
inductive PyVal where
  | VNone : PyVal
  | VBool : Bool → PyVal
  | VInt : Int → PyVal
  | VStr : String → PyVal
deriving DecidableEq

/-- Python truthiness: `None`, `False`, `0` and `""` are falsy. -/
def truthy : PyVal → Bool
  | .VNone => false
  | .VBool b => b
  | .VInt n => n != 0
  | .VStr s => s != ""

/-- Python `x or y`: returns `x` when truthy, else `y`. -/
def pyOr (x y : PyVal) : PyVal := if truthy x then x else y

/-- A Python dict with string keys: one raw alert record, or one entry of
the MITRE mapping table.  Keys are unique in a real dict; lookup takes
the first binding. -/
abbrev PyDict := List (String × PyVal)

def lookupKey : PyDict → String → Option PyVal
  | [], _ => none
  | (k, v) :: rest, key => if k = key then some v else lookupKey rest key

/-- Python `d.get(key)` (default `None`). -/
def pyGet (d : PyDict) (key : String) : PyVal := (lookupKey d key).getD .VNone

/-- Python `d.get(key, default)`. -/
def pyGetD (d : PyDict) (key : String) (dflt : PyVal) : PyVal :=
  (lookupKey d key).getD dflt

/-- Remove every binding of `key` (used to speak about an alert with a
field absent). -/
def eraseKey : PyDict → String → PyDict
  | [], _ => []
  | (k, v) :: rest, key =>
    if k = key then eraseKey rest key else (k, v) :: eraseKey rest key

/-- `.lower()` / `.strip()` are `str` methods: on any non-string value
Python raises `AttributeError`; the error aborts the script. -/
def strOfPy : PyVal → Except String String
  | .VStr s => .ok s
  | _ => .error "AttributeError"

/-- Per-character lowercasing (basic latin), as `str.lower` acts on the
characters relevant here. -/
def pyCharLower (c : Char) : Char :=
  if h : 65 ≤ c.toNat ∧ c.toNat ≤ 90 then
    Char.ofNatAux (c.toNat + 32) (Or.inl (by omega))
  else c

/-- Python `s.lower()`. -/
def lowerStr (s : String) : String := String.mk (s.data.map pyCharLower)

/-- Python `s.strip()`: drop leading and trailing whitespace. -/
def stripStr (s : String) : String :=
  String.mk
    (((s.data.dropWhile Char.isWhitespace).reverse.dropWhile
        Char.isWhitespace).reverse)

/-- Does `needle` occur as a contiguous run inside `hay`? -/
def listContains (needle : List Char) : List Char → Bool
  | [] => needle.isEmpty
  | c :: rest => needle.isPrefixOf (c :: rest) || listContains needle rest

/-- Python `needle in hay` on strings (substring test). -/
def pyIn (needle hay : String) : Bool := listContains needle.data hay.data

/-- An ASCII uppercase letter. -/
def isUpperCh (c : Char) : Bool := 65 ≤ c.toNat && c.toNat ≤ 90

instance {ε α : Type} [DecidableEq ε] [DecidableEq α] :
    DecidableEq (Except ε α) := fun x y =>
  match x, y with
  | .ok a, .ok b =>
    if h : a = b then isTrue (by rw [h])
    else isFalse (fun he => h (by cases he; rfl))
  | .ok _, .error _ => isFalse (fun he => Except.noConfusion he)
  | .error _, .ok _ => isFalse (fun he => Except.noConfusion he)
  | .error e, .error f =>
    if h : e = f then isTrue (by rw [h])
    else isFalse (fun he => h (by cases he; rfl))

/-! ## The helper functions of `app.py` (lines 132-170) -/

/-- `parse_time` (app.py:132-139).  The permissive date parser
(`dateutil.parser.parse`) is external; it is abstracted by `p`, where
`p s = none` covers a parser exception (swallowed by the `try/except`).
A non-string truthy candidate makes `parser.parse` raise `TypeError`,
also swallowed. -/
def parse_time (p : String → Option Nat) (alert : PyDict) : Option Nat :=
  let ts := pyOr (pyGet alert "timestamp")
      (pyOr (pyGet alert "time") (pyGet alert "event_time"))
  if truthy ts then
    match ts with
    | .VStr s => p s
    | _ => none
  else none

/-- `pick_source` (app.py:141-142). -/
def pick_source (alert : PyDict) : PyVal :=
  pyOr (pyGet alert "source")
    (pyOr (pyGet alert "vendor")
      (pyOr (pyGet alert "product") (.VStr "Unknown")))

/-- `pick_alert_type` (app.py:144-145). -/
def pick_alert_type (alert : PyDict) : PyVal :=
  pyOr (pyGet alert "type")
    (pyOr (pyGet alert "alert_type")
      (pyOr (pyGet alert "signature") (.VStr "Unknown")))

/-- `severity_bucket` (app.py:147-163).  Both `sev` and `text` are
computed before any branch, exactly as in the source; each `.lower()`
can raise on a non-string truthy value. -/
def severity_bucket (alert : PyDict) (alert_type_text : PyVal) :
    Except String String :=
  match strOfPy (pyOr (pyGet alert "severity") (.VStr "")) with
  | .error e => .error e
  | .ok sevRaw =>
    match strOfPy (pyOr alert_type_text (.VStr "")) with
    | .error e => .error e
    | .ok textRaw =>
      let sev := stripStr (lowerStr sevRaw)
      let text := lowerStr textRaw
      if sev = "critical" ∨ sev = "high" then .ok "High"
      else if sev = "medium" then .ok "Medium"
      else if sev = "low" then .ok "Low"
      else if pyIn "sql injection" text || pyIn "malware" text then .ok "High"
      else if pyIn "brute force" text || pyIn "failed login" text ||
          pyIn "port scan" text then .ok "Medium"
      else .ok "Low"

/-- The MITRE mapping table: dict iteration order is insertion order, so
a list of (keyword, entry-dict) pairs. -/
abbrev MitreMap := List (String × PyDict)

/-- The `for keyword, mapping in mitre_map.items()` loop of
`mitre_enrich` (app.py:167-170), after `text` has been computed. -/
def enrichLoop : MitreMap → String → PyVal × PyVal
  | [], _ => (.VStr "Unknown", .VStr "Unknown")
  | (keyword, mapping) :: rest, text =>
    if pyIn keyword text then
      (pyGetD mapping "tactic" (.VStr "Unknown"),
       pyGetD mapping "technique" (.VStr "Unknown"))
    else enrichLoop rest text

/-- `mitre_enrich` (app.py:165-170), with the module-level `mitre_map`
made an explicit parameter. -/
def mitre_enrich (mitre_map : MitreMap) (alert_type_text : PyVal) :
    Except String (PyVal × PyVal) :=
  match strOfPy (pyOr alert_type_text (.VStr "")) with
  | .error e => .error e
  | .ok textRaw => .ok (enrichLoop mitre_map (lowerStr textRaw))

/-! ## The normalization loop (app.py:176-193) -/

/-- One normalized row as appended by the loop body. -/
structure NormalizedAlert where
  timestamp : Option Nat
  source : PyVal
  alert_type : PyVal
  severity_bucket : String
  mitre_tactic : PyVal
  mitre_technique : PyVal
deriving DecidableEq

/-- The body of the loop for one alert `a`: an uncaught exception from
`severity_bucket` or `mitre_enrich` aborts the whole script. -/
def normalize_one (p : String → Option Nat) (mitre_map : MitreMap)
    (a : PyDict) : Except String NormalizedAlert :=
  let atype := pick_alert_type a
  let ts := parse_time p a
  let src := pick_source a
  match severity_bucket a atype with
  | .error e => .error e
  | .ok bucket =>
    match mitre_enrich mitre_map atype with
    | .error e => .error e
    | .ok (tactic, technique) =>
      .ok { timestamp := ts, source := src, alert_type := atype,
            severity_bucket := bucket, mitre_tactic := tactic,
            mitre_technique := technique }

/-- The loop itself: `rows.append(...)` accumulates state across
iterations, modelled by the explicit accumulator `acc`. -/
def normLoop (p : String → Option Nat) (mitre_map : MitreMap) :
    List PyDict → List NormalizedAlert →
    Except String (List NormalizedAlert)
  | [], acc => .ok acc
  | a :: rest, acc =>
    match normalize_one p mitre_map a with
    | .error e => .error e
    | .ok row => normLoop p mitre_map rest (acc ++ [row])

/-- `normalized_rows` (app.py:176-193): run the loop from the empty
list. -/
def normalized_rows (p : String → Option Nat) (mitre_map : MitreMap)
    (raw_alerts : List PyDict) : Except String (List NormalizedAlert) :=
  normLoop p mitre_map raw_alerts []

/-! ## Spec-side definitions (§4.2 of the design spec), for refinement
claims only -/

/-- `classify_severity` as the spec's §4.2 words it: normalize the raw
severity to lowercase and trimmed, honour an explicit recognized value,
otherwise fall back to keyword heuristics on the lowercased type text. -/
def classify_severity (raw_severity : Option String)
    (alert_type_text : String) : String :=
  let sev := stripStr (lowerStr (raw_severity.getD ""))
  if sev = "critical" ∨ sev = "high" then "High"
  else if sev = "medium" then "Medium"
  else if sev = "low" then "Low"
  else
    let text := lowerStr alert_type_text
    if pyIn "sql injection" text ∨ pyIn "malware" text then "High"
    else if pyIn "brute force" text ∨ pyIn "failed login" text ∨
        pyIn "port scan" text then "Medium"
    else "Low"

/-- `enrich_mitre` as the spec's §4.2 words it, over the spec's view of
the mapping table: an ordered list of (keyword, tactic, technique). -/
def enrich_mitre_spec (table : List (String × String × String))
    (alert_type_text : String) : String × String :=
  match table.find? (fun kv => pyIn kv.1 (lowerStr alert_type_text)) with
  | some kv => (kv.2.1, kv.2.2)
  | none => ("Unknown", "Unknown")

/-- View a spec-level mapping table as the Python dict structure
`mitre_enrich` iterates. -/
def tableOfSpec (table : List (String × String × String)) : MitreMap :=
  table.map (fun kv =>
    (kv.1, [("tactic", PyVal.VStr kv.2.1), ("technique", PyVal.VStr kv.2.2)]))

/-! ## Well-typedness predicates -/

/-- Is the value a string? -/
def isVStrB : PyVal → Bool
  | .VStr _ => true
  | _ => false

/-- The value survives `(v or "").lower()`: a string, or falsy. -/
def strOk (v : PyVal) : Bool := isVStrB v || !truthy v

/-- `v` as an optional string (the spec's view of a text field). -/
def asStrOpt : PyVal → Option String
  | .VStr s => some s
  | _ => none

/-- A present dict value that is a string (absent is fine). -/
def optVStr : Option PyVal → Bool
  | some v => isVStrB v
  | none => true

/-- A mapping-table entry whose `tactic`/`technique` values, when
present, are strings. -/
def entryWF (e : PyDict) : Bool :=
  optVStr (lookupKey e "tactic") && optVStr (lookupKey e "technique")

/-- All entries of the mapping table are well-formed. -/
def mapWF (m : MitreMap) : Bool := m.all (fun kv => entryWF kv.2)

/-- An alert whose severity value and resolved alert-type value can
reach `.lower()` without an exception. -/
def alertWF (a : PyDict) : Bool :=
  strOk (pyGet a "severity") && strOk (pick_alert_type a)

/-! ## Shared lemmas -/

theorem truthy_ne_empty {v : PyVal} (h : truthy v = true) :
    v ≠ .VStr "" := by
  intro he; subst he; simp [truthy] at h

theorem strOfPy_pyOr_empty_of_strOk {v : PyVal} (h : strOk v = true) :
    strOfPy (pyOr v (.VStr "")) = .ok ((asStrOpt v).getD "") := by
  by_cases ht : truthy v = true
  · have hv : ∃ s, v = .VStr s := by
      cases v <;> simp_all [strOk, isVStrB, truthy]
    obtain ⟨s, rfl⟩ := hv
    simp [pyOr, ht, strOfPy, asStrOpt]
  · have ht' : truthy v = false := by simpa using ht
    cases v <;> simp_all [pyOr, truthy, strOfPy, asStrOpt]

theorem strOfPy_pyOr_str (s : String) :
    strOfPy (pyOr (.VStr s) (.VStr "")) = .ok s := by
  by_cases hs : s = ""
  · subst hs; rfl
  · simp [pyOr, truthy, hs, strOfPy]

theorem lookupKey_eraseKey (d : PyDict) (k : String) :
    lookupKey (eraseKey d k) k = none := by
  induction d with
  | nil => rfl
  | cons kv rest ih =>
    obtain ⟨k', v⟩ := kv
    by_cases h : k' = k
    · simpa [eraseKey, h] using ih
    · simpa [eraseKey, lookupKey, h] using ih

theorem toNat_pyCharLower_of_upper {c : Char}
    (h : 65 ≤ c.toNat ∧ c.toNat ≤ 90) :
    (pyCharLower c).toNat = c.toNat + 32 := by
  simp only [pyCharLower, dif_pos h]
  rfl

theorem isUpperCh_pyCharLower (c : Char) :
    isUpperCh (pyCharLower c) = false := by
  by_cases h : 65 ≤ c.toNat ∧ c.toNat ≤ 90
  · have ht := toNat_pyCharLower_of_upper h
    simp only [isUpperCh, ht, Bool.and_eq_false_iff, decide_eq_false_iff_not]
    omega
  · simp only [pyCharLower, dif_neg h]
    simp only [isUpperCh, Bool.and_eq_false_iff, decide_eq_false_iff_not]
    omega

theorem mem_of_listContains {n h : List Char}
    (hc : listContains n h = true) : ∀ c ∈ n, c ∈ h := by
  induction h with
  | nil =>
    intro c hcn
    simp [listContains, List.isEmpty_iff] at hc
    simp [hc] at hcn
  | cons x rest ih =>
    intro c hcn
    simp only [listContains, Bool.or_eq_true] at hc
    rcases hc with hpre | hrec
    · have hsub : n <+: x :: rest :=
        (List.isPrefixOf_iff_prefix).1 hpre
      exact hsub.subset hcn
    · exact List.mem_cons_of_mem x (ih hrec c hcn)

theorem pyIn_lowerStr_eq_false_of_upper {k : String}
    (hk : k.data.any isUpperCh = true) (t : String) :
    pyIn k (lowerStr t) = false := by
  rcases List.any_eq_true.1 hk with ⟨c, hcm, hcu⟩
  by_contra hfalse
  have hcontains : listContains k.data (lowerStr t).data = true := by
    simpa [pyIn] using hfalse
  have hmem : c ∈ (lowerStr t).data := mem_of_listContains hcontains c hcm
  have hmap : c ∈ t.data.map pyCharLower := by
    simpa [lowerStr] using hmem
  rcases List.mem_map.1 hmap with ⟨c', _, hc'⟩
  rw [← hc'] at hcu
  rw [isUpperCh_pyCharLower c'] at hcu
  exact Bool.false_ne_true hcu

theorem enrichLoop_append_no_match {pre : MitreMap} {text : String}
    (h : ∀ kv ∈ pre, pyIn kv.1 text = false) (rest : MitreMap) :
    enrichLoop (pre ++ rest) text = enrichLoop rest text := by
  induction pre with
  | nil => rfl
  | cons kv pre' ih =>
    obtain ⟨k, e⟩ := kv
    have hk : pyIn k text = false := h (k, e) (List.mem_cons_self _ _)
    simp only [List.cons_append, enrichLoop, hk, Bool.false_eq_true,
      if_false]
    exact ih (fun kv hkv => h kv (List.mem_cons_of_mem _ hkv))

theorem enrichLoop_skip_middle {k : String} {text : String}
    (hk : pyIn k text = false) (e : PyDict) (pre post : MitreMap) :
    enrichLoop (pre ++ (k, e) :: post) text =
      enrichLoop (pre ++ post) text := by
  induction pre with
  | nil => simp only [List.nil_append, enrichLoop, hk,
      Bool.false_eq_true, if_false]
  | cons kv pre' ih =>
    obtain ⟨k', e'⟩ := kv
    by_cases h' : pyIn k' text = true
    · simp only [List.cons_append, enrichLoop, h', if_true]
    · have h'' : pyIn k' text = false := by simpa using h'
      simp only [List.cons_append, enrichLoop, h'', Bool.false_eq_true,
        if_false]
      exact ih

theorem pyGetD_of_optVStr {e : PyDict} {k : String}
    (h : optVStr (lookupKey e k) = true) (d : String) :
    ∃ s, pyGetD e k (.VStr d) = .VStr s := by
  unfold pyGetD
  cases hl : lookupKey e k with
  | none => exact ⟨d, rfl⟩
  | some v =>
    rw [hl] at h
    cases v <;> simp_all [optVStr, isVStrB, Option.getD]

theorem severity_bucket_mem (a : PyDict) (t : PyVal)
    (h1 : strOk (pyGet a "severity") = true) (h2 : strOk t = true) :
    ∃ b, severity_bucket a t = .ok b ∧
      (b = "High" ∨ b = "Medium" ∨ b = "Low") := by
  unfold severity_bucket
  rw [strOfPy_pyOr_empty_of_strOk h1, strOfPy_pyOr_empty_of_strOk h2]
  dsimp only
  repeat' split
  all_goals first
    | exact ⟨"High", rfl, Or.inl rfl⟩
    | exact ⟨"Medium", rfl, Or.inr (Or.inl rfl)⟩
    | exact ⟨"Low", rfl, Or.inr (Or.inr rfl)⟩

theorem severity_bucket_ok_mem {a : PyDict} {t : PyVal} {b : String}
    (h : severity_bucket a t = .ok b) :
    b = "High" ∨ b = "Medium" ∨ b = "Low" := by
  unfold severity_bucket at h
  dsimp only at h
  repeat' split at h
  all_goals try (cases h)
  all_goals simp

theorem enrichLoop_wf {m : MitreMap} (hm : mapWF m = true)
    (text : String) :
    ∃ s1 s2, enrichLoop m text = (.VStr s1, .VStr s2) := by
  induction m with
  | nil => exact ⟨"Unknown", "Unknown", rfl⟩
  | cons kv m' ih =>
    obtain ⟨k, e⟩ := kv
    have hh : entryWF e = true ∧ mapWF m' = true := by
      simpa [mapWF, List.all_cons] using hm
    by_cases hk : pyIn k text = true
    · have he := hh.1
      have h1 : optVStr (lookupKey e "tactic") = true := by
        simp [entryWF] at he; exact he.1
      have h2 : optVStr (lookupKey e "technique") = true := by
        simp [entryWF] at he; exact he.2
      obtain ⟨s1, hs1⟩ := pyGetD_of_optVStr h1 "Unknown"
      obtain ⟨s2, hs2⟩ := pyGetD_of_optVStr h2 "Unknown"
      exact ⟨s1, s2, by simp [enrichLoop, hk, hs1, hs2]⟩
    · have hk' : pyIn k text = false := by simpa using hk
      obtain ⟨s1, s2, hs⟩ := ih hh.2
      exact ⟨s1, s2, by simp [enrichLoop, hk', hs]⟩

theorem mitre_enrich_ok_of_wf {m : MitreMap} {t : PyVal}
    (hm : mapWF m = true) (ht : strOk t = true) :
    ∃ ta te, mitre_enrich m t = .ok (ta, te) ∧
      (∃ s, ta = .VStr s) ∧ (∃ s, te = .VStr s) := by
  unfold mitre_enrich
  rw [strOfPy_pyOr_empty_of_strOk ht]
  dsimp only
  obtain ⟨s1, s2, hs⟩ :=
    enrichLoop_wf hm (lowerStr ((asStrOpt t).getD ""))
  exact ⟨.VStr s1, .VStr s2, by rw [hs], ⟨s1, rfl⟩, ⟨s2, rfl⟩⟩

theorem normalize_one_ok {p : String → Option Nat} {m : MitreMap}
    {a : PyDict} (ha : alertWF a = true) (hm : mapWF m = true) :
    ∃ r, normalize_one p m a = .ok r ∧
      (r.severity_bucket = "High" ∨ r.severity_bucket = "Medium" ∨
        r.severity_bucket = "Low") ∧
      (∃ s, r.mitre_tactic = .VStr s) ∧
      (∃ s, r.mitre_technique = .VStr s) := by
  have hpair : strOk (pyGet a "severity") = true ∧
      strOk (pick_alert_type a) = true := by
    simpa [alertWF, Bool.and_eq_true] using ha
  obtain ⟨b, hb, hbmem⟩ :=
    severity_bucket_mem a (pick_alert_type a) hpair.1 hpair.2
  obtain ⟨ta, te, hmit, hta, hte⟩ := mitre_enrich_ok_of_wf hm hpair.2
  refine ⟨{ timestamp := parse_time p a, source := pick_source a,
            alert_type := pick_alert_type a, severity_bucket := b,
            mitre_tactic := ta, mitre_technique := te },
          ?_, hbmem, hta, hte⟩
  unfold normalize_one
  dsimp only
  rw [hb, hmit]

theorem normLoop_shift (p : String → Option Nat) (m : MitreMap)
    (alerts : List PyDict) (acc : List NormalizedAlert) :
    normLoop p m alerts acc =
      match normLoop p m alerts [] with
      | .error e => .error e
      | .ok rows => .ok (acc ++ rows) := by
  induction alerts generalizing acc with
  | nil => simp [normLoop]
  | cons a rest ih =>
    cases hone : normalize_one p m a with
    | error e => simp [normLoop, hone]
    | ok r =>
      cases hres : normLoop p m rest [] with
      | error e =>
        have l1 := ih (acc ++ [r])
        have l2 := ih [r]
        rw [hres] at l1 l2
        simp only [normLoop, hone, List.nil_append]
        rw [l1, l2]
      | ok rows =>
        have l1 := ih (acc ++ [r])
        have l2 := ih [r]
        rw [hres] at l1 l2
        simp only [normLoop, hone, List.nil_append]
        rw [l1, l2]
        simp [List.append_assoc]

/-! ## Claim theorems -/

/-- C1 (counterexample): the claim "severity_bucket and mitre_enrich
never raise, including for non-string values" is false: a truthy
non-string severity value reaches `.lower()` and raises
`AttributeError`, aborting the batch. -/
theorem severity_bucket_raises_on_nonstring_severity :
    severity_bucket [("severity", .VInt 5)] (.VStr "port scan") =
      .error "AttributeError" := by decide

/-- C1 (amended): for every alert whose `severity` value is a string or
falsy and every alert-type text that is a string or falsy, neither
`severity_bucket` nor `mitre_enrich` raises: both return a result, so
such a malformed alert never aborts the batch. -/
theorem classifiers_never_raise (a : PyDict) (t : PyVal) (m : MitreMap)
    (h1 : strOk (pyGet a "severity") = true) (h2 : strOk t = true) :
    (∃ b, severity_bucket a t = .ok b) ∧
    (∃ pr, mitre_enrich m t = .ok pr) := by
  obtain ⟨b, hb, _⟩ := severity_bucket_mem a t h1 h2
  refine ⟨⟨b, hb⟩, ?_⟩
  unfold mitre_enrich
  rw [strOfPy_pyOr_empty_of_strOk h2]
  exact ⟨_, rfl⟩

/-- C1 witness: the amended theorem at a concrete malformed alert
(absent severity is falsy; text present). -/
theorem classifiers_never_raise_witness :
    (∃ b, severity_bucket [("source", .VInt 3)] (.VStr "weird event") =
      .ok b) ∧
    (∃ pr, mitre_enrich [] (.VStr "weird event") = .ok pr) :=
  classifiers_never_raise _ _ _ (by decide) (by decide)

/-- C2: for a string-or-absent severity field, `severity_bucket` follows
the spec's two-tier algorithm `classify_severity` exactly: normalized
explicit severity wins, otherwise the keyword fallback on the lowercased
type text applies. -/
theorem severity_bucket_refines_spec (a : PyDict) (t : String)
    (hs : strOk (pyGet a "severity") = true) :
    severity_bucket a (.VStr t) =
      .ok (classify_severity (asStrOpt (pyGet a "severity")) t) := by
  unfold severity_bucket classify_severity
  rw [strOfPy_pyOr_empty_of_strOk hs, strOfPy_pyOr_str t]
  dsimp only
  simp only [Bool.or_eq_true, or_assoc]
  split_ifs <;> rfl

/-- C2 witness: explicit `" HIGH "` trims and lowercases to High and
beats the keyword fallback ("port scan" would give Medium). -/
theorem severity_bucket_refines_spec_witness :
    severity_bucket [("severity", .VStr " HIGH ")] (.VStr "port scan") =
      .ok (classify_severity
        (asStrOpt (pyGet [("severity", .VStr " HIGH ")] "severity"))
        "port scan") ∧
    classify_severity
        (asStrOpt (pyGet [("severity", .VStr " HIGH ")] "severity"))
        "port scan" = "High" :=
  ⟨severity_bucket_refines_spec _ _ (by decide), by decide⟩

/-- C3: on any mapping table of (keyword, tactic, technique) entries,
`mitre_enrich` lowercases the text and returns the pair of the first
keyword (in declared order) occurring as a substring, or
("Unknown", "Unknown") when none does — exactly `enrich_mitre_spec`. -/
theorem mitre_enrich_refines_spec
    (table : List (String × String × String)) (t : String) :
    mitre_enrich (tableOfSpec table) (.VStr t) =
      .ok (.VStr (enrich_mitre_spec table t).1,
           .VStr (enrich_mitre_spec table t).2) := by
  unfold mitre_enrich
  rw [strOfPy_pyOr_str t]
  dsimp only
  induction table with
  | nil => rfl
  | cons kv rest ih =>
    obtain ⟨k, ta, te⟩ := kv
    by_cases hk : pyIn k (lowerStr t) = true
    · simp [tableOfSpec, enrichLoop, enrich_mitre_spec, List.find?, hk,
        pyGetD, lookupKey]
    · have hk' : pyIn k (lowerStr t) = false := by simpa using hk
      simp only [tableOfSpec, List.map_cons, enrichLoop, hk',
        Bool.false_eq_true, if_false, enrich_mitre_spec, List.find?]
      simpa [tableOfSpec, enrich_mitre_spec] using ih

/-- C7: an explicit but unrecognized severity string behaves exactly
like an absent severity field: the classification falls through to the
keyword fallback, with no fourth bucket. -/
theorem unrecognized_severity_falls_through (a : PyDict) (t : PyVal)
    (s : String) (hgot : pyGet a "severity" = .VStr s)
    (h1 : stripStr (lowerStr s) ≠ "critical")
    (h2 : stripStr (lowerStr s) ≠ "high")
    (h3 : stripStr (lowerStr s) ≠ "medium")
    (h4 : stripStr (lowerStr s) ≠ "low") :
    severity_bucket a t = severity_bucket (eraseKey a "severity") t := by
  have hrhsget : pyGet (eraseKey a "severity") "severity" = .VNone := by
    simp [pyGet, lookupKey_eraseKey]
  unfold severity_bucket
  rw [hgot, hrhsget]
  have hL := strOfPy_pyOr_str s
  have hR : strOfPy (pyOr PyVal.VNone (PyVal.VStr "")) = Except.ok "" :=
    rfl
  simp only [hL, hR]
  cases htext : strOfPy (pyOr t (.VStr "")) with
  | error e => rfl
  | ok textRaw =>
    dsimp only
    rw [if_neg (fun hor => hor.elim h1 h2), if_neg h3, if_neg h4,
        if_neg (by decide :
          ¬(stripStr (lowerStr "") = "critical" ∨
            stripStr (lowerStr "") = "high")),
        if_neg (by decide : ¬stripStr (lowerStr "") = "medium"),
        if_neg (by decide : ¬stripStr (lowerStr "") = "low")]

/-- C7 witness: severity "informational" with type "malware found"
classifies as if severity were absent, namely High via the keyword
fallback. -/
theorem unrecognized_severity_falls_through_witness :
    severity_bucket
        [("severity", .VStr "informational"),
         ("type", .VStr "malware found")] (.VStr "malware found") =
      severity_bucket
        (eraseKey [("severity", .VStr "informational"),
                   ("type", .VStr "malware found")] "severity")
        (.VStr "malware found") ∧
    severity_bucket
        [("severity", .VStr "informational"),
         ("type", .VStr "malware found")] (.VStr "malware found") =
      .ok "High" :=
  ⟨unrecognized_severity_falls_through _ _ "informational" (by decide)
      (by decide) (by decide) (by decide) (by decide),
   by decide⟩

/-- `parser.parse(v)` under the enclosing `try/except`: a string goes to
the abstract parser `p` (`none` standing for a swallowed parser
exception); any other value raises `TypeError`, also swallowed. -/
def pyParseVal (p : String → Option Nat) : PyVal → Option Nat
  | .VStr s => p s
  | _ => none

/-- C5: `parse_time` tries `timestamp`, then `time`, then `event_time`,
uses the first truthy (present non-empty) value, hands a string to the
permissive parser, and yields `none` (never an exception) when no
candidate is present, the chosen value is empty, or parsing fails. -/
theorem parse_time_field_priority (p : String → Option Nat)
    (a : PyDict) :
    (truthy (pyGet a "timestamp") = true →
      parse_time p a = pyParseVal p (pyGet a "timestamp")) ∧
    (truthy (pyGet a "timestamp") = false →
      truthy (pyGet a "time") = true →
      parse_time p a = pyParseVal p (pyGet a "time")) ∧
    (truthy (pyGet a "timestamp") = false →
      truthy (pyGet a "time") = false →
      truthy (pyGet a "event_time") = true →
      parse_time p a = pyParseVal p (pyGet a "event_time")) ∧
    (truthy (pyGet a "timestamp") = false →
      truthy (pyGet a "time") = false →
      truthy (pyGet a "event_time") = false → parse_time p a = none) ∧
    (∀ s, pyGet a "timestamp" = .VStr s → s ≠ "" → p s = none →
      parse_time p a = none) := by
  refine ⟨?_, ?_, ?_, ?_, ?_⟩
  · intro h1
    simp only [parse_time, pyOr, h1, if_true]
    cases hg : pyGet a "timestamp" <;> simp [pyParseVal, truthy]
  · intro h1 h2
    simp only [parse_time, pyOr, h1, h2, if_true, Bool.false_eq_true,
      if_false]
    cases hg : pyGet a "time" <;> simp [pyParseVal, truthy]
  · intro h1 h2 h3
    simp only [parse_time, pyOr, h1, h2, h3, if_true,
      Bool.false_eq_true, if_false]
    cases hg : pyGet a "event_time" <;> simp [pyParseVal, truthy]
  · intro h1 h2 h3
    simp [parse_time, pyOr, h1, h2, h3]
  · intro s hs hne hp
    have ht : truthy (PyVal.VStr s) = true := by simp [truthy, hne]
    simp [parse_time, pyOr, hs, ht, hp]

/-- C5 witness: the first conjunct at an alert carrying both
`timestamp` and `time`: the `timestamp` value is the one parsed. -/
theorem parse_time_field_priority_witness :
    parse_time (fun s => some s.length)
        [("time", .VStr "xx"), ("timestamp", .VStr "2024-01-01")] =
      pyParseVal (fun s => some s.length)
        (pyGet [("time", .VStr "xx"), ("timestamp", .VStr "2024-01-01")]
          "timestamp") :=
  (parse_time_field_priority (fun s => some s.length) _).1 (by decide)

/-- C6: `pick_source` tries `source`, `vendor`, `product` in order and
`pick_alert_type` tries `type`, `alert_type`, `signature` in order; the
first truthy (present non-empty) value wins, the default is "Unknown",
and neither result is ever the empty string. -/
theorem pick_source_alert_type_fallback (a : PyDict) :
    (truthy (pick_source a) = true ∧ pick_source a ≠ .VStr "" ∧
     truthy (pick_alert_type a) = true ∧
     pick_alert_type a ≠ .VStr "") ∧
    (truthy (pyGet a "source") = true →
      pick_source a = pyGet a "source") ∧
    (truthy (pyGet a "source") = false →
      truthy (pyGet a "vendor") = true →
      pick_source a = pyGet a "vendor") ∧
    (truthy (pyGet a "source") = false →
      truthy (pyGet a "vendor") = false →
      truthy (pyGet a "product") = true →
      pick_source a = pyGet a "product") ∧
    (truthy (pyGet a "source") = false →
      truthy (pyGet a "vendor") = false →
      truthy (pyGet a "product") = false →
      pick_source a = .VStr "Unknown") ∧
    (truthy (pyGet a "type") = true →
      pick_alert_type a = pyGet a "type") ∧
    (truthy (pyGet a "type") = false →
      truthy (pyGet a "alert_type") = true →
      pick_alert_type a = pyGet a "alert_type") ∧
    (truthy (pyGet a "type") = false →
      truthy (pyGet a "alert_type") = false →
      truthy (pyGet a "signature") = true →
      pick_alert_type a = pyGet a "signature") ∧
    (truthy (pyGet a "type") = false →
      truthy (pyGet a "alert_type") = false →
      truthy (pyGet a "signature") = false →
      pick_alert_type a = .VStr "Unknown") := by
  have hsrc : truthy (pick_source a) = true := by
    unfold pick_source
    simp only [pyOr]
    split_ifs <;> first | assumption | decide
  have htyp : truthy (pick_alert_type a) = true := by
    unfold pick_alert_type
    simp only [pyOr]
    split_ifs <;> first | assumption | decide
  refine ⟨⟨hsrc, truthy_ne_empty hsrc, htyp, truthy_ne_empty htyp⟩,
    ?_, ?_, ?_, ?_, ?_, ?_, ?_, ?_⟩
  · intro h1; simp [pick_source, pyOr, h1]
  · intro h1 h2; simp [pick_source, pyOr, h1, h2]
  · intro h1 h2 h3; simp [pick_source, pyOr, h1, h2, h3]
  · intro h1 h2 h3; simp [pick_source, pyOr, h1, h2, h3]
  · intro h1; simp [pick_alert_type, pyOr, h1]
  · intro h1 h2; simp [pick_alert_type, pyOr, h1, h2]
  · intro h1 h2 h3; simp [pick_alert_type, pyOr, h1, h2, h3]
  · intro h1 h2 h3; simp [pick_alert_type, pyOr, h1, h2, h3]

/-- C6 witness: with `source` empty and `vendor` set, the vendor value
wins; on an empty record the default is "Unknown". -/
theorem pick_source_alert_type_fallback_witness :
    pick_source [("source", .VStr ""), ("vendor", .VStr "FW-1")] =
      pyGet [("source", .VStr ""), ("vendor", .VStr "FW-1")] "vendor" ∧
    pick_alert_type ([] : PyDict) = .VStr "Unknown" :=
  ⟨(pick_source_alert_type_fallback _).2.2.1 (by decide) (by decide),
   (pick_source_alert_type_fallback _).2.2.2.2.2.2.2.2 (by decide)
     (by decide) (by decide)⟩

/-- C9: when the first matching keyword's entry lacks a `tactic` or
`technique` key, `mitre_enrich` substitutes "Unknown" for the missing
component, still returns any present component, and does not raise. -/
theorem mitre_enrich_tolerates_missing_entry_fields (t k : String)
    (e : PyDict) (pre post : MitreMap)
    (hpre : ∀ kv ∈ pre, pyIn kv.1 (lowerStr t) = false)
    (hk : pyIn k (lowerStr t) = true) :
    mitre_enrich (pre ++ (k, e) :: post) (.VStr t) =
      .ok (pyGetD e "tactic" (.VStr "Unknown"),
           pyGetD e "technique" (.VStr "Unknown")) ∧
    (lookupKey e "tactic" = none →
      pyGetD e "tactic" (.VStr "Unknown") = .VStr "Unknown") ∧
    (∀ v, lookupKey e "technique" = some v →
      pyGetD e "technique" (.VStr "Unknown") = v) := by
  refine ⟨?_, ?_, ?_⟩
  · unfold mitre_enrich
    rw [strOfPy_pyOr_str t]
    dsimp only
    rw [enrichLoop_append_no_match hpre]
    simp [enrichLoop, hk]
  · intro h; simp [pyGetD, h]
  · intro v h; simp [pyGetD, h]

/-- C9 witness: an entry with only a `technique` yields
("Unknown", that technique) when its keyword is the first hit. -/
theorem mitre_enrich_tolerates_missing_entry_fields_witness :
    mitre_enrich
        ([("zzz", ([] : PyDict))] ++
          ("brute force", [("technique", PyVal.VStr "T1110")]) :: [])
        (.VStr "Brute Force attempt") =
      .ok (pyGetD [("technique", PyVal.VStr "T1110")] "tactic"
             (.VStr "Unknown"),
           pyGetD [("technique", PyVal.VStr "T1110")] "technique"
             (.VStr "Unknown")) ∧
    (lookupKey [("technique", PyVal.VStr "T1110")] "tactic" = none →
      pyGetD [("technique", PyVal.VStr "T1110")] "tactic"
          (.VStr "Unknown") = .VStr "Unknown") ∧
    (∀ v, lookupKey [("technique", PyVal.VStr "T1110")] "technique" =
        some v →
      pyGetD [("technique", PyVal.VStr "T1110")] "technique"
          (.VStr "Unknown") = v) :=
  mitre_enrich_tolerates_missing_entry_fields "Brute Force attempt"
    "brute force" _ _ _ (by decide) (by decide)

/-- C10: `mitre_enrich` lowercases only the text, never the table keys:
a keyword containing an ASCII uppercase letter can never be a substring
of the lowercased text, so its entry is inert — removing it never
changes any result. -/
theorem uppercase_mitre_keys_never_match (k : String)
    (hk : k.data.any isUpperCh = true) :
    (∀ t : String, pyIn k (lowerStr t) = false) ∧
    (∀ (e : PyDict) (pre post : MitreMap) (t : String),
      mitre_enrich (pre ++ (k, e) :: post) (.VStr t) =
        mitre_enrich (pre ++ post) (.VStr t)) := by
  have h1 := pyIn_lowerStr_eq_false_of_upper hk
  refine ⟨h1, ?_⟩
  intro e pre post t
  unfold mitre_enrich
  rw [strOfPy_pyOr_str t]
  dsimp only
  rw [enrichLoop_skip_middle (h1 t)]

/-- C10 witness: the key "SQL Injection" does not even match the text
"sql injection attempt". -/
theorem uppercase_mitre_keys_never_match_witness :
    pyIn "SQL Injection" (lowerStr "sql injection attempt") = false :=
  (uppercase_mitre_keys_never_match "SQL Injection" (by decide)).1 _

/-- C4 (counterexample): the loop does NOT always produce one record per
alert: one malformed alert (truthy non-string severity) raises and
aborts the whole batch, yielding no records at all — even when a later
alert is perfectly fine. -/
theorem normalized_rows_abort_on_malformed :
    normalized_rows (fun _ => none) []
        [[("severity", .VInt 5)], [("type", .VStr "port scan")]] =
      .error "AttributeError" := by decide

/-- C4 (amended): when every alert's severity value and resolved
alert-type value are strings or falsy, and table entries are
well-formed, the loop yields exactly one record per alert, in input
order, with `severity_bucket` one of High/Medium/Low and string-valued
MITRE fields. -/
theorem normalized_rows_one_to_one_ordered (p : String → Option Nat)
    (m : MitreMap) (alerts : List PyDict)
    (hA : ∀ a ∈ alerts, alertWF a = true) (hM : mapWF m = true) :
    ∃ rows, normalized_rows p m alerts = .ok rows ∧
      List.Forall₂ (fun a r => normalize_one p m a = .ok r)
        alerts rows ∧
      rows.length = alerts.length ∧
      ∀ r ∈ rows,
        (r.severity_bucket = "High" ∨ r.severity_bucket = "Medium" ∨
          r.severity_bucket = "Low") ∧
        (∃ s, r.mitre_tactic = .VStr s) ∧
        (∃ s, r.mitre_technique = .VStr s) := by
  induction alerts with
  | nil => exact ⟨[], rfl, List.Forall₂.nil, rfl, by simp⟩
  | cons a rest ih =>
    have ha := hA a (List.mem_cons_self _ _)
    obtain ⟨r, hr, hrb, hrt, hrq⟩ := normalize_one_ok ha hM
    obtain ⟨rows', hrows', hfa, hlen, hall⟩ :=
      ih (fun x hx => hA x (List.mem_cons_of_mem _ hx))
    refine ⟨r :: rows', ?_, List.Forall₂.cons hr hfa, by simp [hlen], ?_⟩
    · unfold normalized_rows at hrows' ⊢
      simp only [normLoop, hr, List.nil_append]
      rw [normLoop_shift p m rest [r], hrows']
      rfl
    · intro r' hr'
      rcases List.mem_cons.1 hr' with hr2 | hr2
      · subst hr2; exact ⟨hrb, hrt, hrq⟩
      · exact hall r' hr2

/-- C4 witness: a two-alert batch (explicit severity; keyword-derived
severity) yields exactly the two rows, in order. -/
theorem normalized_rows_one_to_one_ordered_witness :
    ∃ rows, normalized_rows (fun _ => none)
        [("port scan", [("tactic", PyVal.VStr "Discovery"),
                        ("technique", PyVal.VStr "T1046")])]
        [[("severity", .VStr "high"), ("type", .VStr "x")],
         [("type", .VStr "port scan sweep")]] = .ok rows ∧
      List.Forall₂
        (fun a r => normalize_one (fun _ => none)
          [("port scan", [("tactic", PyVal.VStr "Discovery"),
                          ("technique", PyVal.VStr "T1046")])] a =
            .ok r)
        [[("severity", .VStr "high"), ("type", .VStr "x")],
         [("type", .VStr "port scan sweep")]] rows ∧
      rows.length =
        ([[("severity", .VStr "high"), ("type", .VStr "x")],
          [("type", .VStr "port scan sweep")]] :
            List PyDict).length ∧
      ∀ r ∈ rows,
        (r.severity_bucket = "High" ∨ r.severity_bucket = "Medium" ∨
          r.severity_bucket = "Low") ∧
        (∃ s, r.mitre_tactic = .VStr s) ∧
        (∃ s, r.mitre_technique = .VStr s) :=
  normalized_rows_one_to_one_ordered (fun _ => none) _ _
    (by decide) (by decide)

/-- The loop distributes over batch concatenation: each alert's row
depends only on that alert (and the fixed table), not on state left by
earlier iterations. -/
theorem normLoop_append (p : String → Option Nat) (m : MitreMap)
    (xs ys : List PyDict) :
    normLoop p m (xs ++ ys) [] =
      match normLoop p m xs [] with
      | .error e => .error e
      | .ok rows1 =>
        match normLoop p m ys [] with
        | .error e => .error e
        | .ok rows2 => .ok (rows1 ++ rows2) := by
  induction xs with
  | nil => cases hy : normLoop p m ys [] <;> simp [normLoop, hy]
  | cons a rest ih =>
    cases hone : normalize_one p m a with
    | error e => simp [normLoop, hone]
    | ok r =>
      simp only [List.cons_append, normLoop, hone, List.nil_append,
        List.append_eq]
      rw [normLoop_shift p m (rest ++ ys) [r],
          normLoop_shift p m rest [r], ih]
      cases hx : normLoop p m rest [] with
      | error e => rfl
      | ok rows1 =>
        cases hy : normLoop p m ys [] <;> simp [List.append_assoc]

/-- C8: the pipeline is deterministic and stateless: a second run over
the same raw alerts and table returns the identical collection, and a
batch splits into independent per-suffix runs (no hidden state flows
from one alert's iteration into later ones). -/
theorem pipeline_deterministic_stateless (p : String → Option Nat)
    (m : MitreMap) (alerts : List PyDict) :
    normalized_rows p m alerts = normalized_rows p m alerts ∧
    (∀ ys, normalized_rows p m (alerts ++ ys) =
      match normalized_rows p m alerts with
      | .error e => .error e
      | .ok rows1 =>
        match normalized_rows p m ys with
        | .error e => .error e
        | .ok rows2 => .ok (rows1 ++ rows2)) :=
  ⟨rfl, fun ys => normLoop_append p m alerts ys⟩

end SecOps
